import Mathlib

/-!
Shallow embedding of `ppsci/data/process/transform/preprocess.py`
(data-preprocessing transforms: Translate, Scale, Normalize, Log1p,
CropData, SqueezeData, FunctionalTransform).

Modelling conventions:

* A numpy array (`np.ndarray`) is `NpArray`: a C-ordered flat list of
  elements together with a shape.  Elements are modelled by `ℚ`
  (exact arithmetic stands in for IEEE floats; all claims under
  consideration involve only `+ - * /`, never rounding).
* A Python `dict` mapping variable names to values is an association
  list with the keys in insertion order (real dicts never hold a key
  twice; lemmas assume `Nodup` keys where needed).
* `Translate` and `Scale` update tensors with the in-place operators
  `+=` / `*=` after a *shallow* dict copy, so tensor object identity
  matters for them: they are embedded against an explicit heap of
  arrays, dict values being references (`Ref`) into that heap.
  `{**d}` copies the dict structure but shares the references.
* The transforms that never write in place (`Normalize`, `Log1p`,
  `CropData`, `SqueezeData`: their operations allocate new arrays)
  are embedded value-level, dict values being `NpArray`s directly.
* `raise ValueError(msg)` is `Except.error msg`; Python code that can
  raise is embedded in the `Except String` monad.
* `np.log1p` is irrational-valued, hence not representable over `ℚ`;
  `Log1p.call` takes the elementwise function as an explicit
  parameter.  No claim depends on its numeric values.
-/

/-- A numpy `ndarray`: shape plus C-ordered flat data. -/
structure NpArray where
  shape : List Nat
  data : List ℚ
deriving DecidableEq

/-- `ndarray.ndim`. -/
def NpArray.ndim (a : NpArray) : Nat := a.shape.length

/-- The empty 1-d array, used as the default when dereferencing. -/
def emptyArr : NpArray := ⟨[], []⟩

/-- C-order strides of a shape: stride of a dimension is the product of
the dimensions after it. -/
def cstrides : List Nat → List Nat
  | [] => []
  | _ :: rest => rest.prod :: cstrides rest

/-- Flat (row-major) offset of a multi-index in a shape. -/
def flatIndex (s idx : List Nat) : Nat :=
  (List.zipWith (fun st i => st * i) (cstrides s) idx).sum

/-- The element of an array at a multi-index (0 out of range, as a
total-function convenience; lemmas only use in-range indices). -/
def NpArray.item (a : NpArray) (idx : List Nat) : ℚ :=
  a.data.getD (flatIndex a.shape idx) 0

/-- All multi-indices of a shape, in C (row-major) order. -/
def indicesOf (s : List Nat) : List (List Nat) :=
  s.foldr (fun n acc => (List.range n).flatMap fun i => acc.map (i :: ·)) [[]]

/-- Pad a shape on the left with 1s to length `n` (numpy broadcasting
aligns shapes from the right). -/
def padShape (n : Nat) (s : List Nat) : List Nat :=
  List.replicate (n - s.length) 1 ++ s

/-- Broadcast two dimension extents (numpy rule: equal, or one is 1). -/
def broadcastDim (a b : Nat) : Option Nat :=
  if a = b then some a else if a = 1 then some b else if b = 1 then some a else none

/-- Collect a list of optional dimensions, `none` if any is `none`. -/
def seqDims : List (Option Nat) → Option (List Nat)
  | [] => some []
  | none :: _ => none
  | some x :: rest =>
    match seqDims rest with
    | none => none
    | some xs => some (x :: xs)

/-- Broadcast two shapes, `none` on incompatibility. -/
def broadcastShape (s t : List Nat) : Option (List Nat) :=
  let n := max s.length t.length
  seqDims (List.zipWith broadcastDim (padShape n s) (padShape n t))

/-- Project a multi-index of the broadcast result shape down to an
index of an operand: drop the extra leading axes, read 0 along
broadcast (extent-1) axes. -/
def bIndex (s idx : List Nat) : List Nat :=
  List.zipWith (fun d i => if d = 1 then 0 else i) s (idx.drop (idx.length - s.length))

/-- Elementwise binary numpy operation with broadcasting;
`Except.error` models the `ValueError` numpy raises on incompatible
shapes. -/
def npBinop (f : ℚ → ℚ → ℚ) (a b : NpArray) : Except String NpArray :=
  match broadcastShape a.shape b.shape with
  | none => Except.error "operands could not be broadcast together"
  | some s =>
      Except.ok ⟨s, (indicesOf s).map fun idx =>
        f (a.item (bIndex a.shape idx)) (b.item (bIndex b.shape idx))⟩

/-- numpy `a - b`. -/
def npSub (a b : NpArray) : Except String NpArray := npBinop (fun x y => x - y) a b

/-- numpy `a / b` (division by zero is the caller's responsibility;
`ℚ` division is total with `x / 0 = 0`). -/
def npDiv (a b : NpArray) : Except String NpArray := npBinop (fun x y => x / y) a b

/-- Python-dict association lists. -/
abbrev PyDict (α : Type) := List (String × α)

/-- `d[k]`-style lookup: value at the first occurrence of the key. -/
def dlookup {α : Type} (k : String) : PyDict α → Option α
  | [] => none
  | kv :: rest => if kv.1 = k then some kv.2 else dlookup k rest

/-- `d[k] = v`: replace the value at the first occurrence of `k`
(keeping its position, as Python dicts do), else append. -/
def dictSet {α : Type} : PyDict α → String → α → PyDict α
  | [], k, v => [(k, v)]
  | kv :: rest, k, v => if kv.1 = k then (k, v) :: rest else kv :: dictSet rest k v

/-- A dict of named tensors (value-level embedding). -/
abbrev DictV := PyDict NpArray

/-- The loop pattern `for key, value in d.items(): d[key] = f(value)`
(iteration over a dict while reassigning the key just visited reads
each original value exactly once, in key order). -/
def updateAll (f : NpArray → NpArray) (d : DictV) : DictV :=
  d.foldl (fun acc kv => dictSet acc kv.1 (f kv.2)) d

/-- The same loop pattern when computing the new value can raise. -/
def updateAllM (f : NpArray → Except String NpArray) (d : DictV) :
    Except String DictV :=
  d.foldlM (fun acc kv => do
    let u ← f kv.2
    pure (dictSet acc kv.1 u)) d

/-- The `ValueError` message of the `apply_keys` validation shared by
`Normalize.__init__`, `Log1p.__init__`, `CropData.__init__` and
`SqueezeData.__init__` (it names the offending tuple). -/
def applyKeysMsg (ks : List String) : String :=
  "apply_keys should be a non empty subset of (input, label), but got " ++ toString ks

/-- The shared construction-time validation
`if len(apply_keys) == 0 or len(set(apply_keys) | ("input", "label")) > 2: raise ValueError(...)`;
the Python set is modelled by `Finset`. -/
def checkApplyKeys (ks : List String) : Except String Unit :=
  if ks.length = 0 ∨ 2 < (ks.toFinset ∪ {"input", "label"}).card then
    Except.error (applyKeysMsg ks)
  else Except.ok ()

/-! ### Heap embedding for the in-place transforms (`Translate`, `Scale`) -/

/-- A reference to an array object. -/
abbrev Ref := Nat

/-- The store of array objects (cell `r` is the array object `r`). -/
abbrev ArrHeap := List NpArray

/-- A dict of named tensors in the heap embedding: values are
references, so a shallow dict copy shares the tensors. -/
abbrev DictR := PyDict Ref

/-- Mutate the array object at `r` in place. -/
def ArrHeap.modifyAt (h : ArrHeap) (r : Ref) (f : NpArray → NpArray) : ArrHeap :=
  h.set r (f (h.getD r emptyArr))

/-- In-place `a op= c` for an ndarray and a scalar: elementwise on the
data, shape kept (this is what `+=` / `*=` with a float scalar do). -/
def augArr (op : ℚ → ℚ → ℚ) (a : NpArray) (c : ℚ) : NpArray :=
  ⟨a.shape, a.data.map (fun x => op x c)⟩

/-- One iteration of
`for key in cfg: if key in input_dict: input_dict_copy[key] op= cfg[key]` —
`key in input_dict` tests the *original* dict, the augmented
assignment reads the reference from the copy, mutates that array
object in place and rebinds the key to the object `op=` returns
(the same object, as `ndarray.__iadd__` returns `self`). -/
def augStep (op : ℚ → ℚ → ℚ) (input_dict : DictR) (st : ArrHeap × DictR)
    (kc : String × ℚ) : ArrHeap × DictR :=
  if (dlookup kc.1 input_dict).isSome then
    match dlookup kc.1 st.2 with
    | some r => (st.1.modifyAt r (fun a => augArr op a kc.2), dictSet st.2 kc.1 r)
    | none => st
  else st

/-- Common body of `Translate.__call__` and `Scale.__call__`:
`input_dict_copy = {**input_dict}` (the copy shares the array
objects), then the loop above; labels and weights returned verbatim. -/
def augCall (op : ℚ → ℚ → ℚ) (cfg : List (String × ℚ)) (h : ArrHeap)
    (input_dict label_dict weight_dict : DictR) :
    ArrHeap × DictR × DictR × DictR :=
  let st := cfg.foldl (augStep op input_dict) (h, input_dict)
  (st.1, st.2, label_dict, weight_dict)

/-- `Translate`: per-key scalar offsets. -/
structure Translate where
  offset : List (String × ℚ)

/-- `Translate.__call__`. -/
def Translate.call (t : Translate) (h : ArrHeap)
    (input_dict label_dict weight_dict : DictR) : ArrHeap × DictR × DictR × DictR :=
  augCall (fun x c => x + c) t.offset h input_dict label_dict weight_dict

/-- `Scale`: per-key scalar factors. -/
structure Scale where
  scale : List (String × ℚ)

/-- `Scale.__call__`. -/
def Scale.call (t : Scale) (h : ArrHeap)
    (input_dict label_dict weight_dict : DictR) : ArrHeap × DictR × DictR × DictR :=
  augCall (fun x c => x * c) t.scale h input_dict label_dict weight_dict

/-! ### Normalize -/

/-- `Normalize`: mean/std arrays plus the mapping selector. -/
structure Normalize where
  mean : NpArray
  std : NpArray
  apply_keys : List String

/-- `Normalize.__init__` (validation then construction). -/
def Normalize.init (mean std : NpArray) (apply_keys : List String) :
    Except String Normalize :=
  match checkApplyKeys apply_keys with
  | Except.error e => Except.error e
  | Except.ok _ => Except.ok ⟨mean, std, apply_keys⟩

/-- `(value - self.mean) / self.std`. -/
def normValue (mean std v : NpArray) : Except String NpArray := do
  let u ← npSub v mean
  npDiv u std

/-- `Normalize.__call__`. -/
def Normalize.call (t : Normalize) (input_item label_item weight_item : DictV) :
    Except String (DictV × DictV × DictV) :=
  (if "input" ∈ t.apply_keys
    then updateAllM (normValue t.mean t.std) input_item else pure input_item) >>= fun i =>
  (if "label" ∈ t.apply_keys
    then updateAllM (normValue t.mean t.std) label_item else pure label_item) >>= fun l =>
  pure (i, l, weight_item)

/-! ### Log1p -/

/-- `Log1p`: a scalar scale plus the mapping selector. -/
structure Log1p where
  scale : ℚ
  apply_keys : List String

/-- `Log1p.__init__`. -/
def Log1p.init (scale : ℚ) (apply_keys : List String) : Except String Log1p :=
  match checkApplyKeys apply_keys with
  | Except.error e => Except.error e
  | Except.ok _ => Except.ok ⟨scale, apply_keys⟩

/-- `np.log1p(value / self.scale)`, with the transcendental `log1p`
passed in as a parameter (see the header comment). -/
def log1pValue (log1p : ℚ → ℚ) (scale : ℚ) (v : NpArray) : NpArray :=
  ⟨v.shape, v.data.map (fun x => log1p (x / scale))⟩

/-- `Log1p.__call__`. -/
def Log1p.call (log1p : ℚ → ℚ) (t : Log1p)
    (input_item label_item weight_item : DictV) : DictV × DictV × DictV :=
  let i := if "input" ∈ t.apply_keys
    then updateAll (log1pValue log1p t.scale) input_item else input_item
  let l := if "label" ∈ t.apply_keys
    then updateAll (log1pValue log1p t.scale) label_item else label_item
  (i, l, weight_item)

/-! ### CropData -/

/-- `CropData`: the two corner points plus the mapping selector. -/
structure CropData where
  xmin : Int × Int
  xmax : Int × Int
  apply_keys : List String

/-- `CropData.__init__`. -/
def CropData.init (xmin xmax : Int × Int) (apply_keys : List String) :
    Except String CropData :=
  match checkApplyKeys apply_keys with
  | Except.error e => Except.error e
  | Except.ok _ => Except.ok ⟨xmin, xmax, apply_keys⟩

/-- Normalise a Python slice bound against an axis length:
negative bounds count from the end, then the bound is clamped to
`[0, len]`. -/
def pyBound (len : Nat) (i : Int) : Nat :=
  ((if i < 0 then i + len else i).toNat).min len

/-- `value[:, x0:x1, y0:y1]`: the whole first axis, slices of the
second and third, remaining axes untouched; fewer than three axes is
the `IndexError: too many indices` case. -/
def npCrop (a : NpArray) (x0 x1 y0 y1 : Int) : Except String NpArray :=
  match a.shape with
  | c :: hh :: ww :: rest =>
    let i0 := pyBound hh x0
    let i1 := pyBound hh x1
    let j0 := pyBound ww y0
    let j1 := pyBound ww y1
    let s := c :: (i1 - i0) :: (j1 - j0) :: rest
    Except.ok ⟨s, (indicesOf s).map fun idx =>
      a.item (match idx with
        | a0 :: a1 :: a2 :: tl => a0 :: (i0 + a1) :: (j0 + a2) :: tl
        | other => other)⟩
  | _ => Except.error "too many indices for array"

/-- The value computed per tensor by `CropData.__call__`:
`value[:, xmin[0]:xmax[0], xmin[1]:xmax[1]]`. -/
def cropValue (xmin xmax : Int × Int) (v : NpArray) : Except String NpArray :=
  npCrop v xmin.1 xmax.1 xmin.2 xmax.2

/-- `CropData.__call__`. -/
def CropData.call (t : CropData) (input_item label_item weight_item : DictV) :
    Except String (DictV × DictV × DictV) :=
  (if "input" ∈ t.apply_keys
    then updateAllM (cropValue t.xmin t.xmax) input_item else pure input_item) >>= fun i =>
  (if "label" ∈ t.apply_keys
    then updateAllM (cropValue t.xmin t.xmax) label_item else pure label_item) >>= fun l =>
  pure (i, l, weight_item)

/-! ### SqueezeData -/

/-- `SqueezeData`: just the mapping selector. -/
structure SqueezeData where
  apply_keys : List String

/-- `SqueezeData.__init__`. -/
def SqueezeData.init (apply_keys : List String) : Except String SqueezeData :=
  match checkApplyKeys apply_keys with
  | Except.error e => Except.error e
  | Except.ok _ => Except.ok ⟨apply_keys⟩

/-- `B, C, H, W = value.shape; value.reshape((B * C, H, W))` — a
C-order reshape keeps the flat data. -/
def reshapeBCHW (a : NpArray) : NpArray :=
  match a.shape with
  | [b, c, hh, ww] => ⟨[b * c, hh, ww], a.data⟩
  | _ => a

/-- The `ValueError` message raised by `SqueezeData.__call__`. -/
def squeezeMsg (n : Nat) : String :=
  "Only support squeeze data to ndim=3 now, but got ndim=" ++ toString n

/-- One iteration of the `SqueezeData.__call__` loop, exactly as in
the source: if `value.ndim == 4` the reshaped array is stored into the
copy, and then `value.ndim != 3` is tested on the *original* loop
variable `value` — which is still 4-dimensional, so the branch also
raises after a reshape. -/
def squeezeStep (acc : DictV) (kv : String × NpArray) : Except String DictV :=
  let acc2 := if kv.2.ndim = 4 then dictSet acc kv.1 (reshapeBCHW kv.2) else acc
  if kv.2.ndim ≠ 3 then Except.error (squeezeMsg kv.2.ndim) else Except.ok acc2

/-- `SqueezeData.__call__`. -/
def SqueezeData.call (t : SqueezeData) (input_item label_item weight_item : DictV) :
    Except String (DictV × DictV × DictV) :=
  (if "input" ∈ t.apply_keys
    then input_item.foldlM squeezeStep input_item else pure input_item) >>= fun i =>
  (if "label" ∈ t.apply_keys
    then label_item.foldlM squeezeStep label_item else pure label_item) >>= fun l =>
  pure (i, l, weight_item)

/-! ### FunctionalTransform -/

/-- For `FunctionalTransform` the *dict objects* have identity (the
claim under consideration is that the user function receives fresh
copies), so the three dicts are passed as references into a store of
dict objects; dict values are array references, so the copies are
shallow. The user function is arbitrary: it receives the store and the
three references and may return anything. -/
structure FunctionalTransform (α : Type) where
  transform_func : List DictR → Ref → Ref → Ref → α

/-- `{**weight_dict} if weight_dict is not None else {}`: the content
of the weights copy. -/
def weightCopy (dh : List DictR) (weightR : Option Ref) : DictR :=
  match weightR with
  | some r => dh.getD r []
  | none => []

/-- `FunctionalTransform.__call__`: shallow-copy the three dicts
(`{**weight_dict}` replaced by `{}` when `weight_dict` is `None`),
allocate the copies as fresh dict objects, delegate to the user
function and return its result verbatim. -/
def FunctionalTransform.call {α : Type} (t : FunctionalTransform α)
    (dh : List DictR) (dataR labelR : Ref) (weightR : Option Ref) : α :=
  let data_dict_copy := dh.getD dataR []
  let label_dict_copy := dh.getD labelR []
  let weight_dict_copy := weightCopy dh weightR
  let dh2 := dh ++ [data_dict_copy, label_dict_copy, weight_dict_copy]
  t.transform_func dh2 dh.length (dh.length + 1) (dh.length + 2)

/-! ### Dictionary lemmas -/

theorem dlookup_isSome_iff {α : Type} (k : String) (d : PyDict α) :
    (dlookup k d).isSome ↔ k ∈ d.map Prod.fst := by
  induction d with
  | nil => simp [dlookup]
  | cons kv rest ih =>
    by_cases hk : kv.1 = k
    · simp [dlookup, hk]
    · simp [dlookup, hk, ih, Ne.symm hk]

theorem dlookup_mem_snd {α : Type} {k : String} {d : PyDict α} {v : α}
    (h : dlookup k d = some v) : v ∈ d.map Prod.snd := by
  induction d with
  | nil => simp [dlookup] at h
  | cons kv rest ih =>
    by_cases hk : kv.1 = k
    · simp [dlookup, hk] at h
      simp [← h]
    · simp only [dlookup, hk, if_neg] at h
      simp [ih h]

theorem dlookup_inj_ne {α : Type} {d : PyDict α} {k1 k2 : String} {r : α}
    (hnd : (d.map Prod.snd).Nodup) (hne : k1 ≠ k2)
    (h1 : dlookup k1 d = some r) : dlookup k2 d ≠ some r := by
  induction d with
  | nil => simp [dlookup]
  | cons kv rest ih =>
    simp only [List.map_cons, List.nodup_cons] at hnd
    simp only [dlookup] at h1 ⊢
    by_cases ha : kv.1 = k1
    · rw [if_pos ha] at h1
      have hb : ¬ kv.1 = k2 := by rw [ha]; exact hne
      rw [if_neg hb]
      intro hc
      have h2 : kv.2 = r := Option.some.inj h1
      exact hnd.1 (by rw [h2]; exact dlookup_mem_snd hc)
    · rw [if_neg ha] at h1
      by_cases hb : kv.1 = k2
      · rw [if_pos hb]
        intro hc
        have h2 : kv.2 = r := Option.some.inj hc
        exact hnd.1 (by rw [h2]; exact dlookup_mem_snd h1)
      · rw [if_neg hb]
        exact ih hnd.2 h1

theorem dictSet_self {α : Type} {d : PyDict α} {k : String} {v : α}
    (h : dlookup k d = some v) : dictSet d k v = d := by
  induction d with
  | nil => simp [dlookup] at h
  | cons kv rest ih =>
    simp only [dlookup] at h
    by_cases hk : kv.1 = k
    · rw [if_pos hk] at h
      have h2 : kv.2 = v := Option.some.inj h
      simp only [dictSet, if_pos hk]
      rw [← hk, ← h2]
    · rw [if_neg hk] at h
      simp [dictSet, hk, ih h]

theorem dictSet_middle {α : Type} (xs ys : PyDict α) (k : String) (v w : α)
    (hk : k ∉ xs.map Prod.fst) :
    dictSet (xs ++ (k, v) :: ys) k w = xs ++ (k, w) :: ys := by
  induction xs with
  | nil => simp [dictSet]
  | cons x xs ih =>
    simp only [List.map_cons, List.mem_cons] at hk
    push_neg at hk
    have hx : x.1 ≠ k := fun he => hk.1 he.symm
    simp [dictSet, hx, ih hk.2]

theorem dictSet_keys {α : Type} {d : PyDict α} {k : String} (v : α)
    (h : k ∈ d.map Prod.fst) :
    (dictSet d k v).map Prod.fst = d.map Prod.fst := by
  induction d with
  | nil => simp at h
  | cons x xs ih =>
    by_cases hx : x.1 = k
    · simp [dictSet, hx]
    · have hxs : k ∈ xs.map Prod.fst := by
        rw [List.map_cons] at h
        rcases List.mem_cons.mp h with h1 | h1
        · exact absurd h1.symm hx
        · exact h1
      simp [dictSet, hx, ih hxs]

/-! ### Lemmas on the per-key update loops -/

theorem exceptBind_ok {e a b : Type} (x : a) (f : a → Except e b) :
    (Except.ok x >>= f) = f x := rfl

theorem exceptBind_error {e a b : Type} (m : e) (f : a → Except e b) :
    ((Except.error m : Except e a) >>= f) = Except.error m := rfl

theorem exceptPure {e a : Type} (x : a) : (pure x : Except e a) = Except.ok x := rfl

theorem updateAllM_go (f : NpArray → Except String NpArray) (g : NpArray → NpArray)
    (l : DictV) : ∀ pre : DictV,
    ((pre ++ l).map Prod.fst).Nodup →
    (∀ kv ∈ l, f kv.2 = Except.ok (g kv.2)) →
    l.foldlM (fun acc kv => do
        let u ← f kv.2
        pure (dictSet acc kv.1 u))
      ((pre.map fun kv => (kv.1, g kv.2)) ++ l) =
    Except.ok ((pre ++ l).map fun kv => (kv.1, g kv.2)) := by
  induction l with
  | nil => intro pre _ _; simp [List.foldlM, exceptPure]
  | cons kv rest ih =>
    intro pre hnd hok
    have hf : f kv.2 = Except.ok (g kv.2) := hok kv (by simp)
    have hk : kv.1 ∉ (pre.map fun kv => (kv.1, g kv.2)).map Prod.fst := by
      intro hmem
      rw [List.map_map] at hmem
      have hmem2 : kv.1 ∈ pre.map Prod.fst := by
        simpa using hmem
      rw [List.map_append, List.map_cons] at hnd
      exact (List.disjoint_of_nodup_append hnd) hmem2 (by simp)
    have hstep : dictSet ((pre.map fun kv => (kv.1, g kv.2)) ++ kv :: rest) kv.1 (g kv.2) =
        (pre.map fun kv => (kv.1, g kv.2)) ++ (kv.1, g kv.2) :: rest := by
      have hmid := dictSet_middle (α := NpArray) (pre.map fun kv => (kv.1, g kv.2)) rest
        kv.1 kv.2 (g kv.2) hk
      simpa using hmid
    have hnd2 : (((pre ++ [kv]) ++ rest).map Prod.fst).Nodup := by
      simpa using hnd
    have hrec := ih (pre ++ [kv]) hnd2 (fun kv2 hm => hok kv2 (by simp [hm]))
    simp only [List.foldlM_cons, hf, exceptBind_ok, exceptPure, hstep]
    simp only [List.map_append, List.map_cons, List.append_assoc, List.cons_append,
      List.nil_append, List.map_nil] at hrec ⊢
    exact hrec

theorem updateAllM_eq_map (f : NpArray → Except String NpArray)
    (g : NpArray → NpArray) (d : DictV) (hnd : (d.map Prod.fst).Nodup)
    (hok : ∀ kv ∈ d, f kv.2 = Except.ok (g kv.2)) :
    updateAllM f d = Except.ok (d.map fun kv => (kv.1, g kv.2)) := by
  have h := updateAllM_go f g d [] (by simpa) hok
  simpa [updateAllM] using h

theorem updateAll_go (f : NpArray → NpArray) (l : DictV) : ∀ pre : DictV,
    ((pre ++ l).map Prod.fst).Nodup →
    l.foldl (fun acc kv => dictSet acc kv.1 (f kv.2))
      ((pre.map fun kv => (kv.1, f kv.2)) ++ l) =
    (pre ++ l).map fun kv => (kv.1, f kv.2) := by
  induction l with
  | nil => intro pre _; simp
  | cons kv rest ih =>
    intro pre hnd
    have hk : kv.1 ∉ (pre.map fun kv => (kv.1, f kv.2)).map Prod.fst := by
      intro hmem
      rw [List.map_map] at hmem
      have hmem2 : kv.1 ∈ pre.map Prod.fst := by simpa using hmem
      rw [List.map_append, List.map_cons] at hnd
      exact (List.disjoint_of_nodup_append hnd) hmem2 (by simp)
    have hstep : dictSet ((pre.map fun kv => (kv.1, f kv.2)) ++ kv :: rest) kv.1 (f kv.2) =
        (pre.map fun kv => (kv.1, f kv.2)) ++ (kv.1, f kv.2) :: rest := by
      have hmid := dictSet_middle (α := NpArray) (pre.map fun kv => (kv.1, f kv.2)) rest
        kv.1 kv.2 (f kv.2) hk
      simpa using hmid
    have hnd2 : (((pre ++ [kv]) ++ rest).map Prod.fst).Nodup := by simpa using hnd
    have hrec := ih (pre ++ [kv]) hnd2
    simp only [List.foldl_cons, hstep]
    simp only [List.map_append, List.map_cons, List.append_assoc, List.cons_append,
      List.nil_append, List.map_nil] at hrec ⊢
    exact hrec

theorem updateAll_eq_map (f : NpArray → NpArray) (d : DictV)
    (hnd : (d.map Prod.fst).Nodup) :
    updateAll f d = d.map fun kv => (kv.1, f kv.2) := by
  have h := updateAll_go f d [] (by simpa)
  simpa [updateAll] using h

theorem foldlM_dictSet_keys (f : NpArray → Except String NpArray) (l : List (String × NpArray)) :
    ∀ (acc res : DictV), (∀ kv ∈ l, kv.1 ∈ acc.map Prod.fst) →
    l.foldlM (fun acc kv => do
        let u ← f kv.2
        pure (dictSet acc kv.1 u)) acc = Except.ok res →
    res.map Prod.fst = acc.map Prod.fst := by
  induction l with
  | nil =>
    intro acc res _ h
    simp only [List.foldlM_nil, exceptPure, Except.ok.injEq] at h
    rw [← h]
  | cons kv rest ih =>
    intro acc res hmem h
    rcases hfk : f kv.2 with e | u
    · rw [List.foldlM_cons, hfk, exceptBind_error, exceptBind_error] at h
      exact Except.noConfusion h
    · rw [List.foldlM_cons, hfk, exceptBind_ok, exceptPure, exceptBind_ok] at h
      have hkeys : (dictSet acc kv.1 u).map Prod.fst = acc.map Prod.fst :=
        dictSet_keys u (hmem kv (by simp))
      have hres := ih (dictSet acc kv.1 u) res
        (fun kv2 hm => hkeys ▸ hmem kv2 (by simp [hm])) h
      rw [hres, hkeys]

theorem updateAllM_keys (f : NpArray → Except String NpArray) (d res : DictV)
    (h : updateAllM f d = Except.ok res) : res.map Prod.fst = d.map Prod.fst :=
  foldlM_dictSet_keys f d d res (fun _ hm => List.mem_map_of_mem Prod.fst hm) h

theorem foldl_dictSet_keys (f : NpArray → NpArray) (l : List (String × NpArray)) :
    ∀ acc : DictV, (∀ kv ∈ l, kv.1 ∈ acc.map Prod.fst) →
    (l.foldl (fun acc kv => dictSet acc kv.1 (f kv.2)) acc).map Prod.fst =
      acc.map Prod.fst := by
  induction l with
  | nil => intro acc _; simp
  | cons kv rest ih =>
    intro acc hmem
    have hkeys : (dictSet acc kv.1 (f kv.2)).map Prod.fst = acc.map Prod.fst :=
      dictSet_keys (f kv.2) (hmem kv (by simp))
    rw [List.foldl_cons,
      ih (dictSet acc kv.1 (f kv.2)) (fun kv2 hm => hkeys ▸ hmem kv2 (by simp [hm])),
      hkeys]

theorem updateAll_keys (f : NpArray → NpArray) (d : DictV) :
    (updateAll f d).map Prod.fst = d.map Prod.fst :=
  foldl_dictSet_keys f d d (fun _ hm => List.mem_map_of_mem Prod.fst hm)

/-! ### Lemmas on the `SqueezeData.__call__` loop -/

theorem squeezeStep_of_three (acc : DictV) (kv : String × NpArray)
    (h3 : kv.2.ndim = 3) : squeezeStep acc kv = Except.ok acc := by
  have h4 : ¬ kv.2.ndim = 4 := by rw [h3]; decide
  simp [squeezeStep, h3, h4]

theorem squeezeStep_of_bad (acc : DictV) (kv : String × NpArray)
    (h3 : kv.2.ndim ≠ 3) : squeezeStep acc kv = Except.error (squeezeMsg kv.2.ndim) := by
  simp [squeezeStep, h3]

theorem squeezeFold_ok_of_all3 (d : DictV) (h : ∀ kv ∈ d, kv.2.ndim = 3) :
    ∀ acc : DictV, d.foldlM squeezeStep acc = Except.ok acc := by
  induction d with
  | nil => intro acc; simp [List.foldlM, exceptPure]
  | cons kv rest ih =>
    intro acc
    rw [List.foldlM_cons, squeezeStep_of_three acc kv (h kv (by simp)), exceptBind_ok]
    exact ih (fun kv2 hm => h kv2 (by simp [hm])) acc

theorem squeezeFold_error_of_bad (d : DictV) (k : String) (v : NpArray)
    (hmem : (k, v) ∈ d) (hv : v.ndim ≠ 3) :
    ∀ acc : DictV, ∃ e, d.foldlM squeezeStep acc = Except.error e := by
  induction d with
  | nil => exact absurd hmem (by simp)
  | cons kv rest ih =>
    intro acc
    by_cases h3 : kv.2.ndim = 3
    · rw [List.foldlM_cons, squeezeStep_of_three acc kv h3, exceptBind_ok]
      have hrest : (k, v) ∈ rest := by
        rcases List.mem_cons.mp hmem with he | hr
        · exact absurd (by rw [← he] at h3; exact h3) hv
        · exact hr
      exact ih hrest acc
    · exact ⟨squeezeMsg kv.2.ndim, by
        rw [List.foldlM_cons, squeezeStep_of_bad acc kv h3, exceptBind_error]⟩

theorem squeezeFold_error_at (pre : DictV) (k : String) (v : NpArray) (rest : DictV)
    (hpre : ∀ kv ∈ pre, kv.2.ndim = 3) (hv : v.ndim ≠ 3) :
    ∀ acc : DictV,
    (pre ++ (k, v) :: rest).foldlM squeezeStep acc = Except.error (squeezeMsg v.ndim) := by
  induction pre with
  | nil =>
    intro acc
    rw [List.nil_append, List.foldlM_cons, squeezeStep_of_bad acc (k, v) hv,
      exceptBind_error]
  | cons kv pre2 ih =>
    intro acc
    rw [List.cons_append, List.foldlM_cons,
      squeezeStep_of_three acc kv (hpre kv (by simp)), exceptBind_ok]
    exact ih (fun kv2 hm => hpre kv2 (by simp [hm])) acc

theorem squeezeFold_ok_inv (d : DictV) :
    ∀ (acc res : DictV), d.foldlM squeezeStep acc = Except.ok res → res = acc := by
  induction d with
  | nil =>
    intro acc res h
    simp only [List.foldlM_nil, exceptPure, Except.ok.injEq] at h
    exact h.symm
  | cons kv rest ih =>
    intro acc res h
    by_cases h3 : kv.2.ndim = 3
    · rw [List.foldlM_cons, squeezeStep_of_three acc kv h3, exceptBind_ok] at h
      exact ih acc res h
    · rw [List.foldlM_cons, squeezeStep_of_bad acc kv h3, exceptBind_error] at h
      exact Except.noConfusion h

/-! ### Lemmas on the `Translate` / `Scale` in-place loop -/

theorem getD_set_ne (h : ArrHeap) (r r2 : Ref) (a : NpArray) (hne : r ≠ r2) :
    (h.set r a).getD r2 emptyArr = h.getD r2 emptyArr := by
  simp [List.getD_eq_getElem?_getD, List.getElem?_set_ne hne]

theorem modifyAt_getD_self (h : ArrHeap) (r : Ref) (f : NpArray → NpArray)
    (hf : f emptyArr = emptyArr) :
    (h.modifyAt r f).getD r emptyArr = f (h.getD r emptyArr) := by
  by_cases hr : r < h.length
  · simp [ArrHeap.modifyAt, List.getD_eq_getElem?_getD, List.getElem?_set_self hr]
  · have hlen : h.length ≤ r := Nat.le_of_not_lt hr
    rw [ArrHeap.modifyAt, List.set_eq_of_length_le hlen]
    simp [List.getD_eq_getElem?_getD, List.getElem?_eq_none hlen, hf]

theorem modifyAt_getD_ne (h : ArrHeap) (r r2 : Ref) (f : NpArray → NpArray)
    (hne : r ≠ r2) :
    (h.modifyAt r f).getD r2 emptyArr = h.getD r2 emptyArr :=
  getD_set_ne h r r2 _ hne

theorem augArr_empty (op : ℚ → ℚ → ℚ) (c : ℚ) : augArr op emptyArr c = emptyArr := rfl

theorem augStep_dict (op : ℚ → ℚ → ℚ) (i : DictR) (st : ArrHeap × DictR)
    (kc : String × ℚ) (hst : st.2 = i) : (augStep op i st kc).2 = i := by
  by_cases hp : (dlookup kc.1 i).isSome
  · rcases hl : dlookup kc.1 i with _ | r
    · rw [hl] at hp; simp at hp
    · simp only [augStep, hp, if_pos, hst, hl]
      exact dictSet_self hl
  · simp [augStep, hp, hst]

theorem augFold_state (op : ℚ → ℚ → ℚ) (i : DictR) (cfg : List (String × ℚ)) :
    ∀ h0 : ArrHeap, (cfg.foldl (augStep op i) (h0, i)).2 = i := by
  induction cfg with
  | nil => intro h0; rfl
  | cons kc rest ih =>
    intro h0
    rw [List.foldl_cons]
    have h2 : augStep op i (h0, i) kc = ((augStep op i (h0, i) kc).1, i) := by
      rw [Prod.ext_iff]
      exact ⟨rfl, augStep_dict op i (h0, i) kc rfl⟩
    rw [h2]
    exact ih _

theorem augFold_frame (op : ℚ → ℚ → ℚ) (i : DictR) (cfg : List (String × ℚ)) (r : Ref)
    (hr : ∀ kc ∈ cfg, dlookup kc.1 i ≠ some r) :
    ∀ h0 : ArrHeap,
    ((cfg.foldl (augStep op i) (h0, i)).1).getD r emptyArr = h0.getD r emptyArr := by
  induction cfg with
  | nil => intro h0; rfl
  | cons kc rest ih =>
    intro h0
    rw [List.foldl_cons]
    have h2 : augStep op i (h0, i) kc = ((augStep op i (h0, i) kc).1, i) := by
      rw [Prod.ext_iff]
      exact ⟨rfl, augStep_dict op i (h0, i) kc rfl⟩
    rw [h2]
    have hheap : ((augStep op i (h0, i) kc).1).getD r emptyArr = h0.getD r emptyArr := by
      rcases hl : dlookup kc.1 i with _ | r2
      · simp [augStep, hl]
      · have hne : r2 ≠ r := fun he => hr kc (by simp) (he ▸ hl)
        have hred : (augStep op i (h0, i) kc).1 =
            h0.modifyAt r2 (fun a => augArr op a kc.2) := by
          simp [augStep, hl]
        rw [hred]
        exact modifyAt_getD_ne h0 r2 r _ hne
    rw [← hheap]
    exact ih (fun kc2 hm => hr kc2 (by simp [hm])) _

theorem augFold_hit (op : ℚ → ℚ → ℚ) (i : DictR) (hrs : (i.map Prod.snd).Nodup)
    (k : String) (c : ℚ) (r : Ref) (hlk : dlookup k i = some r) :
    ∀ cfg : List (String × ℚ), (cfg.map Prod.fst).Nodup → (k, c) ∈ cfg →
    ∀ h0 : ArrHeap,
    ((cfg.foldl (augStep op i) (h0, i)).1).getD r emptyArr =
      augArr op (h0.getD r emptyArr) c := by
  intro cfg
  induction cfg with
  | nil => intro _ hmem; exact absurd hmem (by simp)
  | cons kc rest ih =>
    intro hks hmem h0
    rw [List.foldl_cons]
    have hdict : augStep op i (h0, i) kc = ((augStep op i (h0, i) kc).1, i) := by
      rw [Prod.ext_iff]
      exact ⟨rfl, augStep_dict op i (h0, i) kc rfl⟩
    rw [hdict]
    simp only [List.map_cons, List.nodup_cons] at hks
    rcases List.mem_cons.mp hmem with he | hrest
    · have hkc1 : kc.1 = k := by rw [← he]
      have hkc2 : kc.2 = c := by rw [← he]
      have hred : (augStep op i (h0, i) kc).1 =
          h0.modifyAt r (fun a => augArr op a kc.2) := by
        simp [augStep, hkc1, hlk]
      have hframe : ∀ kc2 ∈ rest, dlookup kc2.1 i ≠ some r := by
        intro kc2 hm
        have hne : kc2.1 ≠ k := by
          intro he2
          apply hks.1
          rw [hkc1, ← he2]
          exact List.mem_map_of_mem Prod.fst hm
        exact dlookup_inj_ne hrs (Ne.symm hne) hlk
      rw [augFold_frame op i rest r hframe _, hred,
        modifyAt_getD_self h0 r _ (augArr_empty op kc.2), hkc2]
    · have hkne : kc.1 ≠ k := by
        intro he2
        apply hks.1
        rw [he2]
        exact List.mem_map_of_mem Prod.fst hrest
      have hheap : ((augStep op i (h0, i) kc).1).getD r emptyArr = h0.getD r emptyArr := by
        rcases hl : dlookup kc.1 i with _ | r2
        · simp [augStep, hl]
        · have hner : r2 ≠ r := by
            intro he2
            exact dlookup_inj_ne hrs hkne hl (he2.symm ▸ hlk)
          have hred : (augStep op i (h0, i) kc).1 =
              h0.modifyAt r2 (fun a => augArr op a kc.2) := by
            simp [augStep, hl]
          rw [hred]
          exact modifyAt_getD_ne h0 r2 r _ hner
      rw [ih hks.2 hrest ((augStep op i (h0, i) kc).1), hheap]

/-! ### Characterising the `apply_keys` validation -/

theorem applyKeysBad_iff (ks : List String) :
    (ks.length = 0 ∨ 2 < (ks.toFinset ∪ {"input", "label"}).card) ↔
      (ks = [] ∨ ∃ k ∈ ks, k ≠ "input" ∧ k ≠ "label") := by
  have hcardB : ({"input", "label"} : Finset String).card = 2 := by decide
  have hmain : 2 < (ks.toFinset ∪ {"input", "label"}).card ↔
      ¬ ks.toFinset ⊆ {"input", "label"} := by
    constructor
    · intro hc hsub
      rw [Finset.union_eq_right.mpr hsub, hcardB] at hc
      exact lt_irrefl 2 hc
    · intro hns
      by_contra hle
      push_neg at hle
      have hsub2 : ({"input", "label"} : Finset String) ⊆ ks.toFinset ∪ {"input", "label"} :=
        Finset.subset_union_right
      have heq := Finset.eq_of_subset_of_card_le hsub2 (by rw [hcardB]; exact hle)
      exact hns (Finset.union_eq_right.mp heq.symm)
  constructor
  · rintro (h0 | hc)
    · exact Or.inl (List.length_eq_zero.mp h0)
    · right
      rcases Finset.not_subset.mp (hmain.mp hc) with ⟨x, hx, hnx⟩
      refine ⟨x, List.mem_toFinset.mp hx, ?_, ?_⟩
      · intro he; exact hnx (by rw [he]; simp)
      · intro he; exact hnx (by rw [he]; simp)
  · rintro (h0 | ⟨k, hk, hki, hkl⟩)
    · exact Or.inl (by rw [h0]; rfl)
    · right
      apply hmain.mpr
      intro hsub
      have hmem := hsub (List.mem_toFinset.mpr hk)
      rcases by simpa [Finset.mem_insert, Finset.mem_singleton] using hmem with h | h
      · exact hki h
      · exact hkl h

theorem checkApplyKeys_error (ks : List String)
    (h : ks = [] ∨ ∃ k ∈ ks, k ≠ "input" ∧ k ≠ "label") :
    checkApplyKeys ks = Except.error (applyKeysMsg ks) := by
  rw [checkApplyKeys, if_pos ((applyKeysBad_iff ks).mpr h)]

theorem checkApplyKeys_ok (ks : List String)
    (h1 : ks ≠ []) (h2 : ∀ k ∈ ks, k = "input" ∨ k = "label") :
    checkApplyKeys ks = Except.ok () := by
  rw [checkApplyKeys, if_neg]
  intro hbad
  rcases (applyKeysBad_iff ks).mp hbad with h0 | ⟨k, hk, hki, hkl⟩
  · exact h1 h0
  · rcases h2 k hk with h | h
    · exact hki h
    · exact hkl h

theorem checkApplyKeys_ok_iff (ks : List String) :
    checkApplyKeys ks = Except.ok () ↔
      (ks ≠ [] ∧ ∀ k ∈ ks, k = "input" ∨ k = "label") := by
  constructor
  · intro h
    constructor
    · intro h0
      rw [checkApplyKeys_error ks (Or.inl h0)] at h
      exact Except.noConfusion h
    · intro k hk
      by_contra hno
      push_neg at hno
      rw [checkApplyKeys_error ks (Or.inr ⟨k, hk, hno.1, hno.2⟩)] at h
      exact Except.noConfusion h
  · intro hp
    exact checkApplyKeys_ok ks hp.1 hp.2

/-! ### Claim theorems -/

/-- C1, counterexample: the claim "apply never mutates the mappings
passed in, including the contents of the tensor values they hold" is
false.  With `Translate(offset = (x: 2))` applied to `inputs = (x: a)`
where `a` is the array object `0` holding `[1]` (shape `[1]`), the
call leaves the caller's `inputs` dict binding `x` to object `0`, but
object `0` now holds `[3]`: `input_dict_copy = {**input_dict}` shares
the array objects and `+=` writes in place. -/
theorem C1_translate_mutates_caller_tensor :
    ((Translate.call ⟨[("x", 2)]⟩ [⟨[1], [1]⟩] [("x", 0)] [] []).1.getD 0 emptyArr =
      ⟨[1], [3]⟩) ∧
    ((Translate.call ⟨[("x", 2)]⟩ [⟨[1], [1]⟩] [("x", 0)] [] []).2.1 = [("x", 0)]) ∧
    (⟨[1], [3]⟩ : NpArray) ≠ ⟨[1], [1]⟩ := by
  refine ⟨?_, by rfl, by decide⟩
  norm_num [Translate.call, augCall, augStep, dlookup, dictSet, ArrHeap.modifyAt, augArr]

/-- C1, amended: for every transform call, the mapping *objects* are
not mutated — the returned inputs mapping has exactly the original
key-to-object bindings and labels/weights are returned verbatim — and
array objects not bound to a configured key in `inputs` are untouched;
but `Translate` and `Scale` mutate in place the contents of each array
object bound in `inputs` to a configured key (with distinct configured
keys and unaliased objects): the object's data gets the offset added,
respectively the factor multiplied. -/
theorem C1_mutation_amended :
    (∀ (off : List (String × ℚ)) (h : ArrHeap) (i l w : DictR),
      (Translate.call ⟨off⟩ h i l w).2 = (i, l, w)) ∧
    (∀ (sc : List (String × ℚ)) (h : ArrHeap) (i l w : DictR),
      (Scale.call ⟨sc⟩ h i l w).2 = (i, l, w)) ∧
    (∀ (off : List (String × ℚ)) (h : ArrHeap) (i l w : DictR) (r : Ref),
      (∀ kc ∈ off, dlookup kc.1 i ≠ some r) →
      ((Translate.call ⟨off⟩ h i l w).1).getD r emptyArr = h.getD r emptyArr) ∧
    (∀ (sc : List (String × ℚ)) (h : ArrHeap) (i l w : DictR) (r : Ref),
      (∀ kc ∈ sc, dlookup kc.1 i ≠ some r) →
      ((Scale.call ⟨sc⟩ h i l w).1).getD r emptyArr = h.getD r emptyArr) ∧
    (∀ (off : List (String × ℚ)) (h : ArrHeap) (i l w : DictR) (k : String) (c : ℚ) (r : Ref),
      (off.map Prod.fst).Nodup → (i.map Prod.snd).Nodup →
      (k, c) ∈ off → dlookup k i = some r →
      ((Translate.call ⟨off⟩ h i l w).1).getD r emptyArr =
        ⟨(h.getD r emptyArr).shape, (h.getD r emptyArr).data.map (fun x => x + c)⟩) ∧
    (∀ (sc : List (String × ℚ)) (h : ArrHeap) (i l w : DictR) (k : String) (c : ℚ) (r : Ref),
      (sc.map Prod.fst).Nodup → (i.map Prod.snd).Nodup →
      (k, c) ∈ sc → dlookup k i = some r →
      ((Scale.call ⟨sc⟩ h i l w).1).getD r emptyArr =
        ⟨(h.getD r emptyArr).shape, (h.getD r emptyArr).data.map (fun x => x * c)⟩) := by
  refine ⟨?_, ?_, ?_, ?_, ?_, ?_⟩
  · intro off h i l w
    simp [Translate.call, augCall, augFold_state]
  · intro sc h i l w
    simp [Scale.call, augCall, augFold_state]
  · intro off h i l w r hfr
    simpa [Translate.call, augCall] using augFold_frame (fun x c => x + c) i off r hfr h
  · intro sc h i l w r hfr
    simpa [Scale.call, augCall] using augFold_frame (fun x c => x * c) i sc r hfr h
  · intro off h i l w k c r hnd hrs hmem hlk
    simpa [Translate.call, augCall, augArr] using
      augFold_hit (fun x c => x + c) i hrs k c r hlk off hnd hmem h
  · intro sc h i l w k c r hnd hrs hmem hlk
    simpa [Scale.call, augCall, augArr] using
      augFold_hit (fun x c => x * c) i hrs k c r hlk sc hnd hmem h

/-- Witness for the amended C1 at a concrete state: heap with two
array objects, `inputs = (x: object 0)`, `labels = (u: object 1)`,
`Translate(offset = (x: 2))`: the dict triple is returned with its
bindings intact, object 1 (not bound to a configured input key) keeps
`[5, 6]`, and object 0 is updated in place from `[1]` to `[3]`. -/
theorem C1_mutation_amended_witness :
    ((Translate.call ⟨[("x", 2)]⟩ [⟨[1], [1]⟩, ⟨[2], [5, 6]⟩] [("x", 0)] [("u", 1)] []).2 =
      ([("x", 0)], [("u", 1)], [])) ∧
    ((Translate.call ⟨[("x", 2)]⟩ [⟨[1], [1]⟩, ⟨[2], [5, 6]⟩] [("x", 0)] [("u", 1)] []).1.getD 1 emptyArr =
      ⟨[2], [5, 6]⟩) ∧
    ((Translate.call ⟨[("x", 2)]⟩ [⟨[1], [1]⟩, ⟨[2], [5, 6]⟩] [("x", 0)] [("u", 1)] []).1.getD 0 emptyArr =
      ⟨([⟨[1], [1]⟩, ⟨[2], [5, 6]⟩].getD 0 emptyArr).shape,
       ([⟨[1], [1]⟩, ⟨[2], [5, 6]⟩].getD 0 emptyArr).data.map (fun x => x + 2)⟩) :=
  ⟨C1_mutation_amended.1 [("x", 2)] [⟨[1], [1]⟩, ⟨[2], [5, 6]⟩] [("x", 0)] [("u", 1)] [],
   (C1_mutation_amended.2.2.1 [("x", 2)] [⟨[1], [1]⟩, ⟨[2], [5, 6]⟩] [("x", 0)] [("u", 1)] [] 1
      (by decide)).trans (by rfl),
   C1_mutation_amended.2.2.2.2.1 [("x", 2)] [⟨[1], [1]⟩, ⟨[2], [5, 6]⟩] [("x", 0)] [("u", 1)] []
      "x" 2 0 (by decide) (by decide) (by decide) (by decide)⟩

/-- C2: evaluating `SqueezeData.__call__` at the failing input — a
single rank-4 tensor of shape `[2, 3, 4, 5]` — shows the call raising
`ValueError: Only support squeeze data to ndim=3 now, but got ndim=4`
instead of returning the `[6, 4, 5]` reshape the claim promises: the
loop stores the reshaped array but then checks `value.ndim != 3` on
the *original* loop variable, which is still rank 4. -/
theorem C2_squeeze_rank4_raises :
    SqueezeData.call ⟨["input", "label"]⟩
      [("x", ⟨[2, 3, 4, 5], List.replicate 120 0⟩)] [] [] =
      Except.error "Only support squeeze data to ndim=3 now, but got ndim=4" := by rfl

/-- C3: constructing `Normalize`, `Log1p`, `CropData` or `SqueezeData`
with an empty `apply_keys` tuple, or with any element outside
(input, label), raises the configuration `ValueError` whose message
names the offending tuple; construction with a non-empty subset of
(input, label) succeeds. -/
theorem C3_applykeys_validation :
    ∀ ks : List String,
      ((ks = [] ∨ ∃ k ∈ ks, k ≠ "input" ∧ k ≠ "label") →
        (∀ mean std, Normalize.init mean std ks = Except.error (applyKeysMsg ks)) ∧
        (∀ sc, Log1p.init sc ks = Except.error (applyKeysMsg ks)) ∧
        (∀ a b, CropData.init a b ks = Except.error (applyKeysMsg ks)) ∧
        SqueezeData.init ks = Except.error (applyKeysMsg ks)) ∧
      ((ks ≠ [] ∧ ∀ k ∈ ks, k = "input" ∨ k = "label") →
        (∀ mean std, Normalize.init mean std ks = Except.ok ⟨mean, std, ks⟩) ∧
        (∀ sc, Log1p.init sc ks = Except.ok ⟨sc, ks⟩) ∧
        (∀ a b, CropData.init a b ks = Except.ok ⟨a, b, ks⟩) ∧
        SqueezeData.init ks = Except.ok ⟨ks⟩) ∧
      applyKeysMsg ks =
        "apply_keys should be a non empty subset of (input, label), but got " ++
          toString ks := by
  intro ks
  refine ⟨?_, ?_, rfl⟩
  · intro hbad
    have h := checkApplyKeys_error ks hbad
    exact ⟨fun mean std => by simp [Normalize.init, h],
      fun sc => by simp [Log1p.init, h],
      fun a b => by simp [CropData.init, h],
      by simp [SqueezeData.init, h]⟩
  · intro hgood
    have h := checkApplyKeys_ok ks hgood.1 hgood.2
    exact ⟨fun mean std => by simp [Normalize.init, h],
      fun sc => by simp [Log1p.init, h],
      fun a b => by simp [CropData.init, h],
      by simp [SqueezeData.init, h]⟩

/-- Witness for C3: `("input", "extra")` is rejected with the message
naming it, `("input",)` is accepted. -/
theorem C3_applykeys_validation_witness :
    Normalize.init ⟨[], [0]⟩ ⟨[], [1]⟩ ["input", "extra"] =
      Except.error (applyKeysMsg ["input", "extra"]) ∧
    SqueezeData.init ["input"] = Except.ok ⟨["input"]⟩ :=
  ⟨((C3_applykeys_validation ["input", "extra"]).1 (by decide)).1 ⟨[], [0]⟩ ⟨[], [1]⟩,
   ((C3_applykeys_validation ["input"]).2.1 (by decide)).2.2.2⟩

/-- C10: the shared `apply_keys` validation accepts tuples with
repeated elements of (input, label) — e.g. `("input", "input")` —,
it accepts a tuple exactly when the tuple is non-empty and all its
elements lie in (input, label) (so repetition never matters for
acceptance), and a repeated element leaves the behaviour of `apply`
unchanged for all four transforms, since they only test membership of
"input" / "label" in `apply_keys`. -/
theorem C10_duplicate_applykeys :
    (checkApplyKeys ["input", "input"] = Except.ok ()) ∧
    (∀ (k : String) (ks : List String), k ∈ ks →
      ((checkApplyKeys (k :: ks) = Except.ok ()) ↔ (checkApplyKeys ks = Except.ok ()))) ∧
    (∀ ks : List String, checkApplyKeys ks = Except.ok () ↔
      (ks ≠ [] ∧ ∀ k ∈ ks, k = "input" ∨ k = "label")) ∧
    (∀ (k : String) (ks : List String), k ∈ ks →
      ∀ (mean std : NpArray) (i l w : DictV),
        Normalize.call ⟨mean, std, k :: ks⟩ i l w = Normalize.call ⟨mean, std, ks⟩ i l w) ∧
    (∀ (k : String) (ks : List String), k ∈ ks →
      ∀ (f : ℚ → ℚ) (sc : ℚ) (i l w : DictV),
        Log1p.call f ⟨sc, k :: ks⟩ i l w = Log1p.call f ⟨sc, ks⟩ i l w) ∧
    (∀ (k : String) (ks : List String), k ∈ ks →
      ∀ (a b : Int × Int) (i l w : DictV),
        CropData.call ⟨a, b, k :: ks⟩ i l w = CropData.call ⟨a, b, ks⟩ i l w) ∧
    (∀ (k : String) (ks : List String), k ∈ ks →
      ∀ (i l w : DictV),
        SqueezeData.call ⟨k :: ks⟩ i l w = SqueezeData.call ⟨ks⟩ i l w) := by
  have hmem : ∀ (k : String) (ks : List String), k ∈ ks →
      ∀ s : String, s ∈ k :: ks ↔ s ∈ ks := by
    intro k ks hk s
    constructor
    · intro h
      rcases List.mem_cons.mp h with rfl | h2
      · exact hk
      · exact h2
    · intro h
      exact List.mem_cons_of_mem k h
  refine ⟨by rfl, ?_, checkApplyKeys_ok_iff, ?_, ?_, ?_, ?_⟩
  · intro k ks hk
    rw [checkApplyKeys_ok_iff, checkApplyKeys_ok_iff]
    constructor
    · rintro ⟨h1, h2⟩
      refine ⟨?_, fun k2 hk2 => h2 k2 (List.mem_cons_of_mem k hk2)⟩
      intro h0
      rw [h0] at hk
      exact absurd hk (List.not_mem_nil k)
    · rintro ⟨h1, h2⟩
      refine ⟨by simp, fun k2 hk2 => ?_⟩
      rcases List.mem_cons.mp hk2 with rfl | h3
      · exact h2 k2 hk
      · exact h2 k2 h3
  · intro k ks hk mean std i l w
    simp [Normalize.call, hmem k ks hk]
  · intro k ks hk f sc i l w
    simp [Log1p.call, hmem k ks hk]
  · intro k ks hk a b i l w
    simp [CropData.call, hmem k ks hk]
  · intro k ks hk i l w
    simp [SqueezeData.call, hmem k ks hk]

/-- Witness for C10: with `apply_keys = ("input", "input")` the
validation accepts, and `SqueezeData` behaves as with `("input",)`. -/
theorem C10_duplicate_applykeys_witness :
    ((checkApplyKeys ["input", "input"] = Except.ok ()) ↔
      (checkApplyKeys ["input"] = Except.ok ())) ∧
    SqueezeData.call ⟨["input", "input"]⟩ [("x", ⟨[1, 1, 1], [7]⟩)] [] [] =
      SqueezeData.call ⟨["input"]⟩ [("x", ⟨[1, 1, 1], [7]⟩)] [] [] :=
  ⟨C10_duplicate_applykeys.2.1 "input" ["input"] (by decide),
   C10_duplicate_applykeys.2.2.2.2.2.2 "input" ["input"] (by decide)
     [("x", ⟨[1, 1, 1], [7]⟩)] [] []⟩

/-- C4: for `SqueezeData`, a tensor of rank neither 3 nor 4 in a
selected mapping makes the call fail; when it is the first
non-rank-3 tensor of the selected inputs mapping the error message
identifies its rank; and when every tensor of both mappings has rank 3
the call succeeds returning everything unchanged. -/
theorem C4_squeeze_rank_errors :
    (∀ (ks : List String) (i l w : DictV) (k : String) (v : NpArray),
      "input" ∈ ks → (k, v) ∈ i → v.ndim ≠ 3 → v.ndim ≠ 4 →
      ∃ e, SqueezeData.call ⟨ks⟩ i l w = Except.error e) ∧
    (∀ (ks : List String) (i l w : DictV) (k : String) (v : NpArray),
      "label" ∈ ks → (k, v) ∈ l → v.ndim ≠ 3 → v.ndim ≠ 4 →
      ∃ e, SqueezeData.call ⟨ks⟩ i l w = Except.error e) ∧
    (∀ (ks : List String) (pre rest l w : DictV) (k : String) (v : NpArray),
      "input" ∈ ks → (∀ kv ∈ pre, kv.2.ndim = 3) → v.ndim ≠ 3 → v.ndim ≠ 4 →
      SqueezeData.call ⟨ks⟩ (pre ++ (k, v) :: rest) l w =
        Except.error (squeezeMsg v.ndim)) ∧
    (∀ (ks : List String) (i l w : DictV),
      (∀ kv ∈ i, kv.2.ndim = 3) → (∀ kv ∈ l, kv.2.ndim = 3) →
      SqueezeData.call ⟨ks⟩ i l w = Except.ok (i, l, w)) := by
  refine ⟨?_, ?_, ?_, ?_⟩
  · intro ks i l w k v hks hmem h3 h4
    obtain ⟨e, he⟩ := squeezeFold_error_of_bad i k v hmem h3 i
    exact ⟨e, by simp only [SqueezeData.call, if_pos hks, he, exceptBind_error]⟩
  · intro ks i l w k v hks hmem h3 h4
    rcases hinp : (if "input" ∈ ks then i.foldlM squeezeStep i else pure i) with e | i2
    · exact ⟨e, by simp only [SqueezeData.call, hinp, exceptBind_error]⟩
    · obtain ⟨e, he⟩ := squeezeFold_error_of_bad l k v hmem h3 l
      refine ⟨e, ?_⟩
      simp only [SqueezeData.call, hinp, exceptBind_ok, if_pos hks, he, exceptBind_error]
  · intro ks pre rest l w k v hks hpre h3 h4
    have he := squeezeFold_error_at pre k v rest hpre h3 (pre ++ (k, v) :: rest)
    simp only [SqueezeData.call, if_pos hks, he, exceptBind_error]
  · intro ks i l w hi hl
    have h1 : (if "input" ∈ ks then i.foldlM squeezeStep i else pure i) = Except.ok i := by
      by_cases hki : "input" ∈ ks
      · rw [if_pos hki]
        exact squeezeFold_ok_of_all3 i hi i
      · rw [if_neg hki]
        rfl
    have h2 : (if "label" ∈ ks then l.foldlM squeezeStep l else pure l) = Except.ok l := by
      by_cases hkl : "label" ∈ ks
      · rw [if_pos hkl]
        exact squeezeFold_ok_of_all3 l hl l
      · rw [if_neg hkl]
        rfl
    simp only [exceptPure] at h1 h2
    simp only [SqueezeData.call, exceptPure, h1, h2, exceptBind_ok]

/-- Witness for C4: a rank-2 tensor of shape `[2, 3]` raises the
shape error naming rank 2, and a rank-3 tensor passes unchanged. -/
theorem C4_squeeze_rank_errors_witness :
    SqueezeData.call ⟨["input"]⟩ [("x", ⟨[2, 3], [0, 0, 0, 0, 0, 0]⟩)] [] [] =
      Except.error (squeezeMsg 2) ∧
    SqueezeData.call ⟨["input"]⟩ [("y", ⟨[1, 2, 3], [0, 0, 0, 0, 0, 0]⟩)] [] [] =
      Except.ok ([("y", ⟨[1, 2, 3], [0, 0, 0, 0, 0, 0]⟩)], [], []) :=
  ⟨C4_squeeze_rank_errors.2.2.1 ["input"] [] [] [] [] "x" ⟨[2, 3], [0, 0, 0, 0, 0, 0]⟩
     (by decide) (by decide) (by decide) (by decide),
   C4_squeeze_rank_errors.2.2.2 ["input"] [("y", ⟨[1, 2, 3], [0, 0, 0, 0, 0, 0]⟩)] [] []
     (by decide) (by decide)⟩

/-- C5: for `Translate` (resp. `Scale`), every configured key present
in `inputs` has its tensor returned with the scalar offset added
(resp. the factor multiplied); configured keys absent from `inputs`
are skipped without error and the returned mapping keeps exactly the
original bindings (in particular its size); the labels and weights
mappings are returned verbatim and the tensors they reference keep
their contents (assuming, as in any real sample, distinct configured
keys and unaliased tensor objects). -/
theorem C5_translate_scale_behaviour :
    (∀ (off : List (String × ℚ)) (h : ArrHeap) (i l w : DictR),
      (off.map Prod.fst).Nodup → (i.map Prod.snd).Nodup →
      (∀ kc ∈ off, ∀ r ∈ l.map Prod.snd ++ w.map Prod.snd, dlookup kc.1 i ≠ some r) →
      (Translate.call ⟨off⟩ h i l w).2 = (i, l, w) ∧
      (∀ (k : String) (c : ℚ) (r : Ref), (k, c) ∈ off → dlookup k i = some r →
        ((Translate.call ⟨off⟩ h i l w).1).getD r emptyArr =
          ⟨(h.getD r emptyArr).shape, (h.getD r emptyArr).data.map (fun x => x + c)⟩) ∧
      (∀ r ∈ l.map Prod.snd ++ w.map Prod.snd,
        ((Translate.call ⟨off⟩ h i l w).1).getD r emptyArr = h.getD r emptyArr)) ∧
    (∀ (sc : List (String × ℚ)) (h : ArrHeap) (i l w : DictR),
      (sc.map Prod.fst).Nodup → (i.map Prod.snd).Nodup →
      (∀ kc ∈ sc, ∀ r ∈ l.map Prod.snd ++ w.map Prod.snd, dlookup kc.1 i ≠ some r) →
      (Scale.call ⟨sc⟩ h i l w).2 = (i, l, w) ∧
      (∀ (k : String) (c : ℚ) (r : Ref), (k, c) ∈ sc → dlookup k i = some r →
        ((Scale.call ⟨sc⟩ h i l w).1).getD r emptyArr =
          ⟨(h.getD r emptyArr).shape, (h.getD r emptyArr).data.map (fun x => x * c)⟩) ∧
      (∀ r ∈ l.map Prod.snd ++ w.map Prod.snd,
        ((Scale.call ⟨sc⟩ h i l w).1).getD r emptyArr = h.getD r emptyArr)) := by
  constructor
  · intro off h i l w hnd hrs hdisj
    refine ⟨by simp [Translate.call, augCall, augFold_state], ?_, ?_⟩
    · intro k c r hmem hlk
      simpa [Translate.call, augCall, augArr] using
        augFold_hit (fun x c => x + c) i hrs k c r hlk off hnd hmem h
    · intro r hr
      simpa [Translate.call, augCall] using
        augFold_frame (fun x c => x + c) i off r (fun kc hm => hdisj kc hm r hr) h
  · intro sc h i l w hnd hrs hdisj
    refine ⟨by simp [Scale.call, augCall, augFold_state], ?_, ?_⟩
    · intro k c r hmem hlk
      simpa [Scale.call, augCall, augArr] using
        augFold_hit (fun x c => x * c) i hrs k c r hlk sc hnd hmem h
    · intro r hr
      simpa [Scale.call, augCall] using
        augFold_frame (fun x c => x * c) i sc r (fun kc hm => hdisj kc hm r hr) h

/-- Witness for C5: `Translate(offset = (x: 2, y: -1))` on
`inputs = (x: object 0)`, `labels = (lab: object 1)`: the dict triple
is returned as passed (so `y`, absent from inputs, was skipped and the
size is unchanged), object 0 `[1, 5]` becomes `[3, 7]`, and the
labels-referenced object 1 keeps `[7]`. -/
theorem C5_translate_scale_behaviour_witness :
    ((Translate.call ⟨[("x", 2), ("y", -1)]⟩ [⟨[2], [1, 5]⟩, ⟨[1], [7]⟩]
        [("x", 0)] [("lab", 1)] []).2 = ([("x", 0)], [("lab", 1)], [])) ∧
    ((Translate.call ⟨[("x", 2), ("y", -1)]⟩ [⟨[2], [1, 5]⟩, ⟨[1], [7]⟩]
        [("x", 0)] [("lab", 1)] []).1.getD 0 emptyArr = ⟨[2], [3, 7]⟩) ∧
    ((Translate.call ⟨[("x", 2), ("y", -1)]⟩ [⟨[2], [1, 5]⟩, ⟨[1], [7]⟩]
        [("x", 0)] [("lab", 1)] []).1.getD 1 emptyArr = ⟨[1], [7]⟩) := by
  have h := C5_translate_scale_behaviour.1 [("x", 2), ("y", -1)]
    [⟨[2], [1, 5]⟩, ⟨[1], [7]⟩] [("x", 0)] [("lab", 1)] []
    (by decide) (by decide) (by decide)
  refine ⟨h.1, ?_, (h.2.2 1 (by decide)).trans (by rfl)⟩
  have h2 := h.2.1 "x" 2 0 (by decide) (by decide)
  rw [h2]
  norm_num

/-- C6: for `Normalize` with configured `mean` and `std`, every tensor
`v` of a mapping selected by `apply_keys` is replaced by
`(v - mean) / std` (elementwise with numpy broadcasting, here the
function `g` with `normValue mean std v = ok (g v)`); a mapping not
selected is returned with unchanged content, and weights are returned
verbatim. -/
theorem C6_normalize_behaviour (mean std : NpArray) (ks : List String)
    (i l w : DictV) (g : NpArray → NpArray)
    (hndi : (i.map Prod.fst).Nodup) (hndl : (l.map Prod.fst).Nodup)
    (hg : ∀ kv ∈ i ++ l, normValue mean std kv.2 = Except.ok (g kv.2)) :
    Normalize.call ⟨mean, std, ks⟩ i l w =
      Except.ok
        ((if "input" ∈ ks then i.map fun kv => (kv.1, g kv.2) else i),
         (if "label" ∈ ks then l.map fun kv => (kv.1, g kv.2) else l),
         w) := by
  have hi := updateAllM_eq_map (normValue mean std) g i hndi
    (fun kv hm => hg kv (List.mem_append_left l hm))
  have hl := updateAllM_eq_map (normValue mean std) g l hndl
    (fun kv hm => hg kv (List.mem_append_right i hm))
  by_cases hki : "input" ∈ ks <;> by_cases hkl : "label" ∈ ks <;>
    simp [Normalize.call, hki, hkl, hi, hl, exceptBind_ok, exceptPure]

/-- Witness for C6, the example of the specification: `mean = 0`,
`std = 2`, `apply_keys = ("input",)`, input `x = 4.0` becomes
`x = 2.0` and the label `y = 5.0` is untouched. -/
theorem C6_normalize_behaviour_witness :
    Normalize.call ⟨⟨[], [0]⟩, ⟨[], [2]⟩, ["input"]⟩
        [("x", ⟨[], [4]⟩)] [("y", ⟨[], [5]⟩)] [] =
      Except.ok ([("x", ⟨[], [2]⟩)], [("y", ⟨[], [5]⟩)], []) := by
  have h := C6_normalize_behaviour ⟨[], [0]⟩ ⟨[], [2]⟩ ["input"]
    [("x", ⟨[], [4]⟩)] [("y", ⟨[], [5]⟩)] []
    (fun v => ⟨[], [v.data.getD 0 0 / 2]⟩) (by decide) (by decide) ?_
  · rw [h]
    norm_num
    decide
  · intro kv hm
    rcases List.mem_append.mp hm with hm1 | hm1
    · rw [List.mem_singleton.mp hm1]
      norm_num [normValue, npSub, npDiv, npBinop, broadcastShape, seqDims, padShape,
        broadcastDim, indicesOf, bIndex, NpArray.item, flatIndex, cstrides, exceptBind_ok]
    · rw [List.mem_singleton.mp hm1]
      norm_num [normValue, npSub, npDiv, npBinop, broadcastShape, seqDims, padShape,
        broadcastDim, indicesOf, bIndex, NpArray.item, flatIndex, cstrides, exceptBind_ok]

/-- C7: for `CropData` with corners `xmin = (x0, y0)`, `xmax = (x1, y1)`,
every tensor of a selected mapping is replaced by the slice
`value[:, x0:x1, y0:y1]` (the function `g` with
`cropValue xmin xmax v = ok (g v)`), mappings not selected and weights
are returned unchanged; and on a tensor of shape `[c, H, W]` with
in-range corners the slice has shape `[c, x1 - x0, y1 - y0]`. -/
theorem C7_crop_behaviour :
    (∀ (xmin xmax : Int × Int) (ks : List String) (i l w : DictV)
        (g : NpArray → NpArray),
      (i.map Prod.fst).Nodup → (l.map Prod.fst).Nodup →
      (∀ kv ∈ i ++ l, cropValue xmin xmax kv.2 = Except.ok (g kv.2)) →
      CropData.call ⟨xmin, xmax, ks⟩ i l w =
        Except.ok
          ((if "input" ∈ ks then i.map fun kv => (kv.1, g kv.2) else i),
           (if "label" ∈ ks then l.map fun kv => (kv.1, g kv.2) else l),
           w)) ∧
    (∀ (v u : NpArray) (c hh ww : Nat) (x0 x1 y0 y1 : Int),
      v.shape = [c, hh, ww] →
      0 ≤ x0 → x0 ≤ x1 → x1 ≤ (hh : Int) → 0 ≤ y0 → y0 ≤ y1 → y1 ≤ (ww : Int) →
      npCrop v x0 x1 y0 y1 = Except.ok u →
      u.shape = [c, (x1 - x0).toNat, (y1 - y0).toNat]) := by
  constructor
  · intro xmin xmax ks i l w g hndi hndl hg
    have hi := updateAllM_eq_map (cropValue xmin xmax) g i hndi
      (fun kv hm => hg kv (List.mem_append_left l hm))
    have hl := updateAllM_eq_map (cropValue xmin xmax) g l hndl
      (fun kv hm => hg kv (List.mem_append_right i hm))
    by_cases hki : "input" ∈ ks <;> by_cases hkl : "label" ∈ ks <;>
      simp [CropData.call, hki, hkl, hi, hl, exceptBind_ok, exceptPure]
  · intro v u c hh ww x0 x1 y0 y1 hshape hx0 hx01 hx1 hy0 hy01 hy1 hcrop
    have hb1 : pyBound hh x0 = x0.toNat := by
      rw [pyBound, if_neg (by omega)]
      exact Nat.min_eq_left (by omega)
    have hb2 : pyBound hh x1 = x1.toNat := by
      rw [pyBound, if_neg (by omega)]
      exact Nat.min_eq_left (by omega)
    have hb3 : pyBound ww y0 = y0.toNat := by
      rw [pyBound, if_neg (by omega)]
      exact Nat.min_eq_left (by omega)
    have hb4 : pyBound ww y1 = y1.toNat := by
      rw [pyBound, if_neg (by omega)]
      exact Nat.min_eq_left (by omega)
    rw [npCrop] at hcrop
    rw [hshape] at hcrop
    simp only [Except.ok.injEq] at hcrop
    rw [← hcrop]
    have e1 : x1.toNat - x0.toNat = (x1 - x0).toNat := by omega
    have e2 : y1.toNat - y0.toNat = (y1 - y0).toNat := by omega
    simp only [hb1, hb2, hb3, hb4, e1, e2]

/-- Witness for C7, the example of the specification: corners
`(0, 0)`–`(2, 3)` crop a `[1, 5, 5]` tensor (entries 0..24) to the
`[1, 2, 3]` sub-tensor `[0, 1, 2, 5, 6, 7]`. -/
theorem C7_crop_behaviour_witness :
    CropData.call ⟨(0, 0), (2, 3), ["input"]⟩
        [("x", ⟨[1, 5, 5], ([0, 1, 2, 3, 4, 5, 6, 7, 8, 9, 10, 11, 12, 13, 14, 15, 16, 17, 18, 19,
          20, 21, 22, 23, 24] : List ℚ)⟩)] [] [] =
      Except.ok ([("x", ⟨[1, 2, 3], [0, 1, 2, 5, 6, 7]⟩)], [], []) ∧
    (⟨[1, 2, 3], [0, 1, 2, 5, 6, 7]⟩ : NpArray).shape = [1, 2, 3] :=
  ⟨(C7_crop_behaviour.1 (0, 0) (2, 3) ["input"]
      [("x", ⟨[1, 5, 5], ([0, 1, 2, 3, 4, 5, 6, 7, 8, 9, 10, 11, 12, 13, 14, 15, 16, 17, 18, 19,
          20, 21, 22, 23, 24] : List ℚ)⟩)] [] []
      (fun _ => ⟨[1, 2, 3], [0, 1, 2, 5, 6, 7]⟩) (by decide) (by decide)
      (by
        intro kv hm
        rcases List.mem_append.mp hm with hm1 | hm1
        · rw [List.mem_singleton.mp hm1]
          rfl
        · exact absurd hm1 (List.not_mem_nil kv))).trans (by rfl),
   C7_crop_behaviour.2 ⟨[1, 5, 5], ([0, 1, 2, 3, 4, 5, 6, 7, 8, 9, 10, 11, 12, 13, 14, 15, 16, 17, 18, 19,
          20, 21, 22, 23, 24] : List ℚ)⟩
     ⟨[1, 2, 3], [0, 1, 2, 5, 6, 7]⟩ 1 5 5 0 2 0 3 rfl (by decide) (by decide) (by decide)
     (by decide) (by decide) (by decide) (by rfl)⟩

theorem getD_append_plus {α : Type} (xs ys : List α) (d : α) (n : Nat) :
    (xs ++ ys).getD (xs.length + n) d = ys.getD n d := by
  simp [List.getD_eq_getElem?_getD,
    List.getElem?_append_right (Nat.le_add_right xs.length n)]

/-- C8: `FunctionalTransform` at call time passes to the user function
three freshly allocated shallow dict copies — distinct objects from
the caller\'s three dicts, holding the same key-to-tensor-reference
entries — with the empty dict standing in for an absent (`None`)
weights argument, and returns whatever the user function returns,
unvalidated. -/
theorem C8_functional_transform {α : Type} (t : FunctionalTransform α)
    (dh : List DictR) (dataR labelR : Ref) (weightR : Option Ref)
    (hd : dataR < dh.length) (hl : labelR < dh.length)
    (hw : ∀ r ∈ weightR, r < dh.length) :
    FunctionalTransform.call t dh dataR labelR weightR =
      t.transform_func
        (dh ++ [dh.getD dataR [], dh.getD labelR [], weightCopy dh weightR])
        dh.length (dh.length + 1) (dh.length + 2) ∧
    (dh.length ≠ dataR ∧ dh.length ≠ labelR ∧ ∀ r ∈ weightR, dh.length ≠ r) ∧
    (dh.length + 1 ≠ dataR ∧ dh.length + 1 ≠ labelR ∧ ∀ r ∈ weightR, dh.length + 1 ≠ r) ∧
    (dh.length + 2 ≠ dataR ∧ dh.length + 2 ≠ labelR ∧ ∀ r ∈ weightR, dh.length + 2 ≠ r) ∧
    (dh.length ≠ dh.length + 1 ∧ dh.length ≠ dh.length + 2 ∧
      dh.length + 1 ≠ dh.length + 2) ∧
    (dh ++ [dh.getD dataR [], dh.getD labelR [], weightCopy dh weightR]).getD
      dh.length [] = dh.getD dataR [] ∧
    (dh ++ [dh.getD dataR [], dh.getD labelR [], weightCopy dh weightR]).getD
      (dh.length + 1) [] = dh.getD labelR [] ∧
    (weightR = none →
      (dh ++ [dh.getD dataR [], dh.getD labelR [], weightCopy dh weightR]).getD
        (dh.length + 2) [] = []) ∧
    (∀ r2, weightR = some r2 →
      (dh ++ [dh.getD dataR [], dh.getD labelR [], weightCopy dh weightR]).getD
        (dh.length + 2) [] = dh.getD r2 []) := by
  have hg0 := getD_append_plus dh
    [dh.getD dataR [], dh.getD labelR [], weightCopy dh weightR] ([] : DictR) 0
  have hg1 := getD_append_plus dh
    [dh.getD dataR [], dh.getD labelR [], weightCopy dh weightR] ([] : DictR) 1
  have hg2 := getD_append_plus dh
    [dh.getD dataR [], dh.getD labelR [], weightCopy dh weightR] ([] : DictR) 2
  have hN : ∀ m n : Nat, m < n → n ≠ m := fun m n h => Ne.symm (Nat.ne_of_lt h)
  refine ⟨rfl, ⟨hN _ _ hd, hN _ _ hl, fun r hr => hN _ _ (hw r hr)⟩,
    ⟨hN _ _ (Nat.lt_succ_of_lt hd), hN _ _ (Nat.lt_succ_of_lt hl),
      fun r hr => hN _ _ (Nat.lt_succ_of_lt (hw r hr))⟩,
    ⟨hN _ _ (Nat.lt_succ_of_lt (Nat.lt_succ_of_lt hd)),
      hN _ _ (Nat.lt_succ_of_lt (Nat.lt_succ_of_lt hl)),
      fun r hr => hN _ _ (Nat.lt_succ_of_lt (Nat.lt_succ_of_lt (hw r hr)))⟩,
    ⟨by omega, by omega, by omega⟩, by simpa using hg0, by simpa using hg1, ?_, ?_⟩
  · intro hnone
    rw [hg2]
    simp [weightCopy, hnone]
  · intro r2 hsome
    rw [hg2]
    simp [weightCopy, hsome]

/-- Witness for C8: one caller dict object `0` holding `(x: tensor 0)`,
no weights: the user function receives the store extended with the
three copies at the fresh references 1, 2, 3 (the weights copy empty),
and its result is returned verbatim. -/
theorem C8_functional_transform_witness :
    FunctionalTransform.call
        (⟨fun dh2 a b c => (dh2.getD a [], dh2.getD b [], dh2.getD c [])⟩ :
          FunctionalTransform (DictR × DictR × DictR))
        [[("x", 0)]] 0 0 none =
      ([("x", 0)], [("x", 0)], []) ∧
    (1 : Nat) ≠ 0 :=
  ⟨(C8_functional_transform
      (⟨fun dh2 a b c => (dh2.getD a [], dh2.getD b [], dh2.getD c [])⟩ :
        FunctionalTransform (DictR × DictR × DictR))
      [[("x", 0)]] 0 0 none (by decide) (by decide) (by simp)).1.trans (by rfl),
   (C8_functional_transform
      (⟨fun dh2 a b c => (dh2.getD a [], dh2.getD b [], dh2.getD c [])⟩ :
        FunctionalTransform (DictR × DictR × DictR))
      [[("x", 0)]] 0 0 none (by decide) (by decide) (by simp)).2.1.1⟩

theorem applyKeysCall_keys (f : NpArray → Except String NpArray) (ks : List String)
    (i l w i2 l2 w2 : DictV)
    (h : ((if "input" ∈ ks then updateAllM f i else pure i) >>= fun a =>
          (if "label" ∈ ks then updateAllM f l else pure l) >>= fun b =>
          pure (a, b, w)) = Except.ok (i2, l2, w2)) :
    i2.map Prod.fst = i.map Prod.fst ∧ l2.map Prod.fst = l.map Prod.fst ∧ w2 = w := by
  rcases hia : (if "input" ∈ ks then updateAllM f i else pure i) with e | a
  · rw [hia, exceptBind_error] at h
    exact Except.noConfusion h
  · rw [hia, exceptBind_ok] at h
    rcases hlb : (if "label" ∈ ks then updateAllM f l else pure l) with e | b
    · rw [hlb, exceptBind_error] at h
      exact Except.noConfusion h
    · rw [hlb, exceptBind_ok, exceptPure] at h
      have h2 : (a, b, w) = (i2, l2, w2) := Except.ok.inj h
      have ha2 : a = i2 := congrArg (fun p => p.1) h2
      have hb2 : b = l2 := congrArg (fun p => p.2.1) h2
      have hw2 : w = w2 := congrArg (fun p => p.2.2) h2
      subst ha2
      subst hb2
      refine ⟨?_, ?_, hw2.symm⟩
      · by_cases hki : "input" ∈ ks
        · rw [if_pos hki] at hia
          exact updateAllM_keys f i a hia
        · rw [if_neg hki, exceptPure] at hia
          rw [(Except.ok.inj hia).symm]
      · by_cases hkl : "label" ∈ ks
        · rw [if_pos hkl] at hlb
          exact updateAllM_keys f l b hlb
        · rw [if_neg hkl, exceptPure] at hlb
          rw [(Except.ok.inj hlb).symm]

theorem squeezeCall_ok_inv (ks : List String) (i l w i2 l2 w2 : DictV)
    (h : SqueezeData.call ⟨ks⟩ i l w = Except.ok (i2, l2, w2)) :
    i2 = i ∧ l2 = l ∧ w2 = w := by
  simp only [SqueezeData.call] at h
  rcases hia : (if "input" ∈ ks then i.foldlM squeezeStep i else pure i) with e | a
  · rw [hia, exceptBind_error] at h
    exact Except.noConfusion h
  · rw [hia, exceptBind_ok] at h
    rcases hlb : (if "label" ∈ ks then l.foldlM squeezeStep l else pure l) with e | b
    · rw [hlb, exceptBind_error] at h
      exact Except.noConfusion h
    · rw [hlb, exceptBind_ok, exceptPure] at h
      have h2 : (a, b, w) = (i2, l2, w2) := Except.ok.inj h
      have ha2 : a = i2 := congrArg (fun p => p.1) h2
      have hb2 : b = l2 := congrArg (fun p => p.2.1) h2
      have hw2 : w = w2 := congrArg (fun p => p.2.2) h2
      subst ha2
      subst hb2
      refine ⟨?_, ?_, hw2.symm⟩
      · by_cases hki : "input" ∈ ks
        · rw [if_pos hki] at hia
          exact squeezeFold_ok_inv i i a hia
        · rw [if_neg hki, exceptPure] at hia
          exact (Except.ok.inj hia).symm
      · by_cases hkl : "label" ∈ ks
        · rw [if_pos hkl] at hlb
          exact squeezeFold_ok_inv l l b hlb
        · rw [if_neg hkl, exceptPure] at hlb
          exact (Except.ok.inj hlb).symm

/-- C9: every built-in transform, on a call that returns normally,
returns mappings with exactly the key sets of the corresponding
arguments: `Translate`/`Scale` return the dicts with unchanged
bindings, `Normalize`/`Log1p`/`CropData` rebind existing keys only,
`SqueezeData` (on success) returns everything unchanged, and weights
are always returned verbatim. -/
theorem C9_key_sets :
    (∀ (off : List (String × ℚ)) (h : ArrHeap) (i l w : DictR),
      ((Translate.call ⟨off⟩ h i l w).2.1).map Prod.fst = i.map Prod.fst ∧
      (Translate.call ⟨off⟩ h i l w).2.2.1 = l ∧
      (Translate.call ⟨off⟩ h i l w).2.2.2 = w) ∧
    (∀ (sc : List (String × ℚ)) (h : ArrHeap) (i l w : DictR),
      ((Scale.call ⟨sc⟩ h i l w).2.1).map Prod.fst = i.map Prod.fst ∧
      (Scale.call ⟨sc⟩ h i l w).2.2.1 = l ∧
      (Scale.call ⟨sc⟩ h i l w).2.2.2 = w) ∧
    (∀ (mean std : NpArray) (ks : List String) (i l w i2 l2 w2 : DictV),
      Normalize.call ⟨mean, std, ks⟩ i l w = Except.ok (i2, l2, w2) →
      i2.map Prod.fst = i.map Prod.fst ∧ l2.map Prod.fst = l.map Prod.fst ∧ w2 = w) ∧
    (∀ (lg : ℚ → ℚ) (sc : ℚ) (ks : List String) (i l w : DictV),
      ((Log1p.call lg ⟨sc, ks⟩ i l w).1).map Prod.fst = i.map Prod.fst ∧
      ((Log1p.call lg ⟨sc, ks⟩ i l w).2.1).map Prod.fst = l.map Prod.fst ∧
      (Log1p.call lg ⟨sc, ks⟩ i l w).2.2 = w) ∧
    (∀ (a b : Int × Int) (ks : List String) (i l w i2 l2 w2 : DictV),
      CropData.call ⟨a, b, ks⟩ i l w = Except.ok (i2, l2, w2) →
      i2.map Prod.fst = i.map Prod.fst ∧ l2.map Prod.fst = l.map Prod.fst ∧ w2 = w) ∧
    (∀ (ks : List String) (i l w i2 l2 w2 : DictV),
      SqueezeData.call ⟨ks⟩ i l w = Except.ok (i2, l2, w2) →
      i2 = i ∧ l2 = l ∧ w2 = w) := by
  refine ⟨?_, ?_, ?_, ?_, ?_, squeezeCall_ok_inv⟩
  · intro off h i l w
    have h2 : (Translate.call ⟨off⟩ h i l w).2 = (i, l, w) := by
      simp [Translate.call, augCall, augFold_state]
    rw [h2]
    exact ⟨rfl, rfl, rfl⟩
  · intro sc h i l w
    have h2 : (Scale.call ⟨sc⟩ h i l w).2 = (i, l, w) := by
      simp [Scale.call, augCall, augFold_state]
    rw [h2]
    exact ⟨rfl, rfl, rfl⟩
  · exact fun mean std ks i l w i2 l2 w2 hcall =>
      applyKeysCall_keys (normValue mean std) ks i l w i2 l2 w2 hcall
  · intro lg sc ks i l w
    refine ⟨?_, ?_, rfl⟩ <;>
      by_cases hki : "input" ∈ ks <;> by_cases hkl : "label" ∈ ks <;>
        simp [Log1p.call, hki, hkl, updateAll_keys]
  · exact fun a b ks i l w i2 l2 w2 hcall =>
      applyKeysCall_keys (cropValue a b) ks i l w i2 l2 w2 hcall

/-- Witness for C9: `CropData((0,0), (1,1))` on input `(x: [1,2,2])`
succeeds with the value reshaped to `[1,1,1]` but the key set `(x)`
preserved; labels and weights stay empty. -/
theorem C9_key_sets_witness :
    ([("x", (⟨[1, 1, 1], [1]⟩ : NpArray))].map Prod.fst =
      [("x", (⟨[1, 2, 2], [1, 2, 3, 4]⟩ : NpArray))].map Prod.fst) ∧
    (([] : DictV).map Prod.fst = ([] : DictV).map Prod.fst) ∧ (([] : DictV) = []) :=
  C9_key_sets.2.2.2.2.1 (0, 0) (1, 1) ["input"]
    [("x", ⟨[1, 2, 2], [1, 2, 3, 4]⟩)] [] [] [("x", ⟨[1, 1, 1], [1]⟩)] [] [] (by rfl)
